import Mathlib

/-!
Shallow embedding of the chess-cli move generator (TypeScript sources under
`src/`): the `Position` coordinate model (`src/models/PieceType.ts`), the
movement strategies (`src/strategies/*.ts`), the strategy factory
(`MovementStrategyFactory`), the position sorter (`PositionSorter`) and the
`ChessMovementService` orchestrator.

Modelling conventions:
* JavaScript strings are `List Char`; `String.prototype.toUpperCase` is
  `Char.toUpper` mapped over the list (the sources only ever meet ASCII).
* JavaScript numbers that the code feeds into `Number.isInteger` checks are
  modelled as `Option Int`, where `none` stands for `NaN` (the result of
  `parseInt` on a non-digit) and `some n` for the integer `n`.
* Thrown `Error`s become an explicit `ChessError` value in `Except`; each
  constructor corresponds to one `throw new Error(...)` site and carries the
  data interpolated into that site's message.
* The `while` loop of `generateMovesInDirection` is modelled with a fuel
  parameter; fuel 16 strictly exceeds the longest possible ray on the 8×8
  board (7 steps plus the terminating edge check), so the fuelled recursion
  agrees with the source loop on every input the strategies produce.
-/

/-- JavaScript's `<` on strings: lexicographic comparison of UTF-16 code
units, used by the source's `upperFile >= 'A' && upperFile <= 'H'` check in
`Position.isValidFile` (src/models/PieceType.ts). -/
def jsStrLt : List Char → List Char → Bool
  | [], [] => false
  | [], _ :: _ => true
  | _ :: _, [] => false
  | c :: cs, d :: ds =>
    if c.toNat < d.toNat then true
    else if d.toNat < c.toNat then false
    else jsStrLt cs ds

/-- `String.prototype.toUpperCase` on the ASCII strings the program meets. -/
def upperStr (s : List Char) : List Char := s.map Char.toUpper

/-- `String.fromCharCode`: the argument is converted with ToUint16 (modulo
2^16) and turned into the character with that code. -/
def fromCharCode (n : Int) : Char := Char.ofNat (n % 65536).toNat

/-- One value per `throw new Error(...)` site of the core.  `invalidRank none`
is the rank message printed for `NaN`; `failedToCalculate e` is the service's
catch-and-rethrow wrapper whose message is
`"Failed to calculate moves: " ++ message of e`. -/
inductive ChessError where
  | invalidFile (file : List Char)
  | invalidRank (rank : Option Int)
  | invalidNotation (text : List Char)
  | noStrategy (pieceType : List Char)
  | failedToCalculate (inner : ChessError)
  deriving DecidableEq, Repr

/-- The `Position` value object of src/models/PieceType.ts: the stored
(uppercased) `_file` string and the stored `_rank` number.  Only validated
ranks are ever stored, so the field is a plain `Int`. -/
structure Position where
  file : List Char
  rank : Int
  deriving DecidableEq, Repr

/-- `Position.isValidFile`: `upperFile >= 'A' && upperFile <= 'H'` with
JavaScript string comparison (note: this is lexicographic on whole strings,
not a single-letter check). -/
def Position.isValidFile (file : List Char) : Bool :=
  let upperFile := upperStr file
  !(jsStrLt upperFile ['A']) && !(jsStrLt ['H'] upperFile)

/-- `Position.isValidRank`: `Number.isInteger(rank) && rank >= 1 && rank <= 8`;
`none` (NaN) is not an integer. -/
def Position.isValidRank : Option Int → Bool
  | none => false
  | some r => decide (1 ≤ r) && decide (r ≤ 8)

/-- The `Position` constructor: validate file then rank, store the file
uppercased.  The rank argument is the JavaScript number handed to `new
Position(file, rank)` (`none` = NaN). -/
def Position.construct (file : List Char) (rank : Option Int) : Except ChessError Position :=
  if !(Position.isValidFile file) then .error (.invalidFile file)
  else if !(Position.isValidRank rank) then .error (.invalidRank rank)
  else .ok { file := upperStr file, rank := rank.getD 0 }

/-- `Position.fromCoordinates(fileIndex, rank)`:
`String.fromCharCode(65 + fileIndex)` then the constructor. -/
def Position.fromCoordinates (fileIndex rank : Int) : Except ChessError Position :=
  Position.construct [fromCharCode (65 + fileIndex)] (some rank)

/-- The `fileIndex` getter: `_file.charCodeAt(0) - 65`. -/
def Position.fileIndex (p : Position) : Int :=
  ((p.file.headD 'A').toNat : Int) - 65

/-- `toNotation()`: the stored file string followed by the decimal rendering
of the rank. -/
def Position.toNotation (p : Position) : List Char :=
  p.file ++ (toString p.rank).data

/-- `parseInt(c, 10)` on the single character `c`: a digit's value, `none`
(NaN) otherwise. -/
def parseDigit (c : Char) : Option Int :=
  if c.isDigit then some ((c.toNat : Int) - 48) else none

/-- `Position.fromNotation(text)`: reject anything but 2 characters with the
`Invalid notation` error, then hand the uppercased first character and the
parsed second character to the constructor (which performs bounds checking). -/
def Position.fromNotation (text : List Char) : Except ChessError Position :=
  if text.length ≠ 2 then .error (.invalidNotation text)
  else Position.construct [Char.toUpper (text.headD ' ')] (parseDigit (text.getD 1 ' '))

/-- `equals(other)`: exact match of the stored file string and rank. -/
def Position.equalsB (p q : Position) : Bool :=
  p.file == q.file && p.rank == q.rank

/-- `isValid()`: re-check of the stored file and rank. -/
def Position.isValid (p : Position) : Bool :=
  Position.isValidFile p.file && Position.isValidRank (some p.rank)

/-- `offset(fileOffset, rankOffset)`: `null` when the shifted coordinates
leave `[0,7] × [1,8]`, otherwise `Position.fromCoordinates` on them (which
cannot fail in that range, so its error case is collapsed with `toOption`). -/
def Position.offset (p : Position) (fileOffset rankOffset : Int) : Option Position :=
  let newFileIndex := p.fileIndex + fileOffset
  let newRank := p.rank + rankOffset
  if newFileIndex < 0 ∨ 7 < newFileIndex ∨ newRank < 1 ∨ 8 < newRank then none
  else (Position.fromCoordinates newFileIndex newRank).toOption

/-- The `while` loop of `BaseMovementStrategy.generateMovesInDirection`,
with an explicit fuel (first argument).  `remaining` counts the steps still
allowed (`none` = no `maxSteps` limit). -/
def genDir : Nat → Position → Int → Int → Option Nat → List Position
  | 0, _, _, _, _ => []
  | fuel + 1, pos, fileDir, rankDir, remaining =>
    if remaining = some 0 then []
    else
      match pos.offset fileDir rankDir with
      | none => []
      | some next => next :: genDir fuel next fileDir rankDir (remaining.map fun n => n - 1)

/-- `BaseMovementStrategy.generateMovesInDirection`: fuel 16 exceeds any ray
on the 8×8 board, so this equals the source's unbounded loop on every call
the strategies make. -/
def generateMovesInDirection (pos : Position) (fileDir rankDir : Int) (maxSteps : Option Nat) : List Position :=
  genDir 16 pos fileDir rankDir maxSteps

/-- The direction table of `generateMovesInAllDirections`, in source order. -/
def directions : List (Int × Int) :=
  [(-1, -1), (-1, 0), (-1, 1), (0, -1), (0, 1), (1, -1), (1, 0), (1, 1)]

/-- `BaseMovementStrategy.generateMovesInAllDirections`. -/
def generateMovesInAllDirections (pos : Position) (maxSteps : Option Nat) : List Position :=
  directions.flatMap fun d => generateMovesInDirection pos d.1 d.2 maxSteps

/-- `PawnMovementStrategy.calculateValidMoves`: the single forward offset when
it stays on the board. -/
def PawnMovementStrategy.calculateValidMoves (position : Position) : List Position :=
  match position.offset 0 1 with
  | some forwardMove => [forwardMove]
  | none => []

/-- `KingMovementStrategy.calculateValidMoves`: all 8 directions, one step. -/
def KingMovementStrategy.calculateValidMoves (position : Position) : List Position :=
  generateMovesInAllDirections position (some 1)

/-- `QueenMovementStrategy.calculateValidMoves`: all 8 directions, unbounded. -/
def QueenMovementStrategy.calculateValidMoves (position : Position) : List Position :=
  generateMovesInAllDirections position none

/-- The factory's `strategyMap`, in registration order.  Keys are the string
values of the `PieceType` enum. -/
def strategyMap : List (List Char × (Position → List Position)) :=
  [("Pawn".data, PawnMovementStrategy.calculateValidMoves),
   ("King".data, KingMovementStrategy.calculateValidMoves),
   ("Queen".data, QueenMovementStrategy.calculateValidMoves)]

/-- `MovementStrategyFactory.createStrategy`: map lookup, `No movement
strategy found` error on a miss. -/
def MovementStrategyFactory.createStrategy (pieceType : List Char) : Except ChessError (Position → List Position) :=
  match strategyMap.lookup pieceType with
  | some create => .ok create
  | none => .error (.noStrategy pieceType)

/-- The sort comparator of `PositionSorter.sort`: file first (string
comparison), then rank.  `true` means `a` sorts strictly before `b`. -/
def posLtB (a b : Position) : Bool :=
  if jsStrLt a.file b.file then true
  else if jsStrLt b.file a.file then false
  else decide (a.rank < b.rank)

/-- Insertion step of the comparator sort. -/
def insertSorted (x : Position) : List Position → List Position
  | [] => [x]
  | y :: ys => if posLtB y x then y :: insertSorted x ys else x :: y :: ys

/-- `PositionSorter.sort`: comparison sort by `posLtB` (the relative order of
ties is irrelevant downstream because duplicates are removed first). -/
def PositionSorter.sort : List Position → List Position
  | [] => []
  | x :: xs => insertSorted x (PositionSorter.sort xs)

/-- The keep-first filter of `sortAndDeduplicate`: an element is kept iff no
`equals`-equal element came before it. -/
def dedupFirst (seen : List Position) : List Position → List Position
  | [] => []
  | p :: rest =>
    if seen.any fun q => Position.equalsB q p then dedupFirst seen rest
    else p :: dedupFirst (p :: seen) rest

/-- `PositionSorter.sortAndDeduplicate`: keep-first dedup, then sort. -/
def PositionSorter.sortAndDeduplicate (positions : List Position) : List Position :=
  PositionSorter.sort (dedupFirst [] positions)

/-- `ChessMovementService.calculateValidMoves`: resolve the strategy, run it,
sort and dedup; the surrounding `try`/`catch` rethrows any error wrapped in
`Failed to calculate moves: ...` (the `failedToCalculate` constructor). -/
def ChessMovementService.calculateValidMoves (pieceType : List Char) (position : Position) : Except ChessError (List Position) :=
  match MovementStrategyFactory.createStrategy pieceType with
  | .ok strategy => .ok (PositionSorter.sortAndDeduplicate (strategy position))
  | .error e => .error (.failedToCalculate e)

/-- Shorthand for a canonical board square: single-letter file, given rank. -/
def mkSq (c : Char) (r : Int) : Position := { file := [c], rank := r }

/-- The 64 squares of the board, i.e. every value `Position.construct` can
produce from a single-letter file. -/
def allSquares : List Position :=
  (List.range 8).flatMap fun fi =>
    (List.range 8).map fun r => mkSq (Char.ofNat (65 + fi)) ((r : Int) + 1)

/-- Boolean strict pairwise sortedness under the sort comparator: every
element sorts strictly before everything after it (this subsumes freedom
from duplicates). -/
def pairwiseLtB : List Position → Bool
  | [] => true
  | x :: xs => (xs.all fun y => posLtB x y) && pairwiseLtB xs

/-- Does a service result hold a strictly sorted (hence duplicate-free)
move list? -/
def resultSortedB (e : Except ChessError (List Position)) : Bool :=
  match e with
  | .ok l => pairwiseLtB l
  | .error _ => false

/-- The three registered piece-kind names. -/
def pieceNames : List (List Char) := ["Pawn".data, "King".data, "Queen".data]

/-- The 27 squares the spec lists for a queen on E4, in the canonical
file-then-rank order. -/
def e4QueenMoves : List Position :=
  [mkSq 'A' 4, mkSq 'A' 8, mkSq 'B' 1, mkSq 'B' 4, mkSq 'B' 7,
   mkSq 'C' 2, mkSq 'C' 4, mkSq 'C' 6, mkSq 'D' 3, mkSq 'D' 4, mkSq 'D' 5,
   mkSq 'E' 1, mkSq 'E' 2, mkSq 'E' 3, mkSq 'E' 5, mkSq 'E' 6, mkSq 'E' 7, mkSq 'E' 8,
   mkSq 'F' 3, mkSq 'F' 4, mkSq 'F' 5, mkSq 'G' 2, mkSq 'G' 4, mkSq 'G' 6,
   mkSq 'H' 1, mkSq 'H' 4, mkSq 'H' 7]

deriving instance DecidableEq for Except

/-- On singleton strings JavaScript's lexicographic `<` is just code-unit
comparison. -/
theorem jsStrLt_single (a b : Char) : jsStrLt [a] [b] = decide (a.toNat < b.toNat) := by
  by_cases h : a.toNat < b.toNat <;> simp [jsStrLt, h]

/-- A string that passes `isValidFile` uppercases to a nonempty string whose
first character code lies in `[65, 72]` (between `'A'` and `'H'`). -/
theorem isValidFile_head (f : List Char) (h : Position.isValidFile f = true) :
    ∃ c cs, upperStr f = c :: cs ∧ 65 ≤ c.toNat ∧ c.toNat ≤ 72 := by
  unfold Position.isValidFile at h
  rw [Bool.and_eq_true, Bool.not_eq_true', Bool.not_eq_true'] at h
  obtain ⟨h1, h2⟩ := h
  cases hu : upperStr f with
  | nil => rw [hu] at h1; exact absurd h1 (by simp [jsStrLt])
  | cons c cs =>
    rw [hu] at h1 h2
    have hA : ('A' : Char).toNat = 65 := rfl
    have hH : ('H' : Char).toNat = 72 := rfl
    refine ⟨c, cs, rfl, ?_, ?_⟩
    · by_contra hlt
      have hc : jsStrLt (c :: cs) ['A'] = true := by
        simp only [jsStrLt, hA]
        rw [if_pos (by omega)]
      rw [hc] at h1
      cases h1
    · by_contra hgt
      have hc : jsStrLt ['H'] (c :: cs) = true := by
        simp only [jsStrLt, hH]
        rw [if_pos (by omega)]
      rw [hc] at h2
      cases h2

/-- What a successful construction yields: a valid file, an in-range rank, and
the uppercased file stored. -/
theorem construct_ok (f : List Char) (r : Option Int) (p : Position)
    (hp : Position.construct f r = Except.ok p) :
    Position.isValidFile f = true ∧ p.file = upperStr f ∧ 1 ≤ p.rank ∧ p.rank ≤ 8 := by
  by_cases h1 : Position.isValidFile f = true
  · rcases r with _ | rv
    · exfalso
      have hred : Position.construct f none = Except.error (ChessError.invalidRank none) := by
        unfold Position.construct
        rw [h1]
        simp [Position.isValidRank]
      rw [hred] at hp
      cases hp
    · by_cases h2 : (1 : Int) ≤ rv ∧ rv ≤ 8
      · have hred : Position.construct f (some rv) =
            Except.ok { file := upperStr f, rank := rv } := by
          unfold Position.construct
          rw [h1]
          simp [Position.isValidRank, h2.1, h2.2]
        rw [hred] at hp
        have hpe := Except.ok.inj hp
        refine ⟨h1, ?_, ?_, ?_⟩ <;> rw [← hpe]
        · exact h2.1
        · exact h2.2
      · exfalso
        have hv : Position.isValidRank (some rv) = false := by
          rw [not_and_or] at h2
          rcases h2 with h | h <;> simp [Position.isValidRank, h]
        have hred : Position.construct f (some rv) =
            Except.error (ChessError.invalidRank (some rv)) := by
          unfold Position.construct
          rw [h1, hv]
          simp
        rw [hred] at hp
        cases hp
  · exfalso
    have hb : Position.isValidFile f = false := by
      cases hfb : Position.isValidFile f
      · rfl
      · exact absurd hfb h1
    have hred : Position.construct f r = Except.error (ChessError.invalidFile f) := by
      unfold Position.construct
      rw [hb]
      simp
    rw [hred] at hp
    cases hp

/-- A constructed position's coordinates are on the board. -/
theorem constructed_bounds (f : List Char) (r : Option Int) (p : Position)
    (hp : Position.construct f r = Except.ok p) :
    0 ≤ p.fileIndex ∧ p.fileIndex ≤ 7 ∧ 1 ≤ p.rank ∧ p.rank ≤ 8 := by
  obtain ⟨hf, hfile, hr1, hr2⟩ := construct_ok f r p hp
  obtain ⟨c, cs, hcu, hc1, hc2⟩ := isValidFile_head f hf
  have : p.fileIndex = (c.toNat : Int) - 65 := by
    rw [Position.fileIndex, hfile, hcu]
    rfl
  rw [this]
  refine ⟨by omega, by omega, hr1, hr2⟩

/-- The three shapes a construction result can take (never any other error). -/
theorem construct_cases (f : List Char) (r : Option Int) :
    Position.construct f r = Except.error (ChessError.invalidFile f) ∨
    Position.construct f r = Except.error (ChessError.invalidRank r) ∨
    ∃ p, Position.construct f r = Except.ok p := by
  unfold Position.construct
  split
  · exact Or.inl rfl
  · split
    · exact Or.inr (Or.inl rfl)
    · exact Or.inr (Or.inr ⟨_, rfl⟩)

/-- Construction of a valid single-letter file with an in-range rank. -/
theorem construct_single_ok (c : Char) (r : Int) (hc : Position.isValidFile [c] = true)
    (h1 : 1 ≤ r) (h2 : r ≤ 8) :
    Position.construct [c] (some r) = Except.ok { file := [Char.toUpper c], rank := r } := by
  simp [Position.construct, hc, Position.isValidRank, h1, h2, upperStr]

/-- `fromCoordinates` unfolded. -/
theorem fromCoordinates_eq (i r : Int) :
    Position.fromCoordinates i r = Position.construct [fromCharCode (65 + i)] (some r) := rfl

/-- For a file index on the board, the produced character is an uppercase
letter `A`–`H`: it passes the file check, is fixed by `toUpper`, and decodes
back to the index. -/
theorem fromCharCode_board (i : Int) (h1 : 0 ≤ i) (h2 : i ≤ 7) :
    Position.isValidFile [fromCharCode (65 + i)] = true ∧
    Char.toUpper (fromCharCode (65 + i)) = fromCharCode (65 + i) ∧
    ((fromCharCode (65 + i)).toNat : Int) - 65 = i := by
  interval_cases i <;> refine ⟨by decide, by decide, by decide⟩

/-- Off-board shifted coordinates make `offset` return `null`. -/
theorem offset_none_of_oob (p : Position) (fd rd : Int)
    (h : p.fileIndex + fd < 0 ∨ 7 < p.fileIndex + fd ∨ p.rank + rd < 1 ∨ 8 < p.rank + rd) :
    Position.offset p fd rd = none := by
  unfold Position.offset
  rw [if_pos h]

/-- On-board shifted coordinates make `offset` return the square built by
`fromCoordinates` from them (no error possible). -/
theorem offset_some_of_inb (p : Position) (fd rd : Int)
    (h1 : 0 ≤ p.fileIndex + fd) (h2 : p.fileIndex + fd ≤ 7)
    (h3 : 1 ≤ p.rank + rd) (h4 : p.rank + rd ≤ 8) :
    Position.offset p fd rd =
      some { file := [fromCharCode (65 + (p.fileIndex + fd))], rank := p.rank + rd } := by
  obtain ⟨hvf, hfix, hdec⟩ := fromCharCode_board (p.fileIndex + fd) h1 h2
  unfold Position.offset
  rw [if_neg (by omega)]
  rw [fromCoordinates_eq, construct_single_ok _ _ hvf h3 h4, hfix]
  rfl

/-- The coordinates of the square `offset` returns in its `some` case. -/
theorem offset_some_coords (p : Position) (fd rd : Int) (q : Position)
    (hq : Position.offset p fd rd = some q) :
    q.fileIndex = p.fileIndex + fd ∧ q.rank = p.rank + rd := by
  by_cases h : p.fileIndex + fd < 0 ∨ 7 < p.fileIndex + fd ∨ p.rank + rd < 1 ∨ 8 < p.rank + rd
  · rw [offset_none_of_oob p fd rd h] at hq
    cases hq
  · rw [offset_some_of_inb p fd rd (by omega) (by omega) (by omega) (by omega)] at hq
    obtain ⟨hvf, hfix, hdec⟩ := fromCharCode_board (p.fileIndex + fd) (by omega) (by omega)
    have hqe := Option.some.inj hq
    constructor <;> rw [← hqe]
    exact hdec

/-- Construction fails with the file error exactly when the file check
fails. -/
theorem construct_invalidFile_iff (f : List Char) (r : Option Int) :
    Position.construct f r = Except.error (ChessError.invalidFile f) ↔
      Position.isValidFile f = false := by
  constructor
  · intro h
    cases hfb : Position.isValidFile f
    · rfl
    · exfalso
      unfold Position.construct at h
      rw [hfb] at h
      by_cases hv : Position.isValidRank r = true
      · rw [hv] at h
        simp at h
      · have : Position.isValidRank r = false := by
          cases hvb : Position.isValidRank r
          · rfl
          · exact absurd hvb hv
        rw [this] at h
        simp at h
  · intro h
    unfold Position.construct
    rw [h]
    simp

/-- With a valid file, construction fails (necessarily with the rank error)
exactly when the rank check fails. -/
theorem construct_invalidRank_iff (f : List Char) (r : Int)
    (hf : Position.isValidFile f = true) :
    Position.construct f (some r) = Except.error (ChessError.invalidRank (some r)) ↔
      ¬(1 ≤ r ∧ r ≤ 8) := by
  constructor
  · intro h hc
    have hred : Position.construct f (some r) =
        Except.ok { file := upperStr f, rank := r } := by
      unfold Position.construct
      rw [hf]
      simp [Position.isValidRank, hc.1, hc.2]
    rw [hred] at h
    cases h
  · intro h
    have hv : Position.isValidRank (some r) = false := by
      rw [not_and_or] at h
      rcases h with h | h <;> simp [Position.isValidRank, h]
    unfold Position.construct
    rw [hf, hv]
    simp

/-- Construction never reports a malformed-text, missing-strategy or wrapped
error: its only failures are the two coordinate errors. -/
theorem construct_error_shapes (f : List Char) (r : Option Int) (e : ChessError)
    (h : Position.construct f r = Except.error e) :
    e = ChessError.invalidFile f ∨ e = ChessError.invalidRank r := by
  rcases construct_cases f r with hc | hc | ⟨p, hc⟩ <;> rw [hc] at h
  · exact Or.inl (Except.error.inj h).symm
  · exact Or.inr (Except.error.inj h).symm
  · cases h

/-- A 2-character text is delegated by `fromNotation` to the constructor. -/
theorem fromNotation_len2 (text : List Char) (hlen : text.length = 2) :
    Position.fromNotation text =
      Position.construct [Char.toUpper (text.headD ' ')] (parseDigit (text.getD 1 ' ')) := by
  unfold Position.fromNotation
  rw [if_neg (fun hx => hx hlen)]

/-- Any other length fails with the malformed-text error. -/
theorem fromNotation_not2 (text : List Char) (hlen : text.length ≠ 2) :
    Position.fromNotation text = Except.error (ChessError.invalidNotation text) := by
  unfold Position.fromNotation
  rw [if_pos hlen]

/-- A single character passes the file check exactly when its uppercase code
is between 65 (`'A'`) and 72 (`'H'`). -/
theorem isValidFile_single_iff (c : Char) :
    Position.isValidFile [c] = true ↔
      65 ≤ (Char.toUpper c).toNat ∧ (Char.toUpper c).toNat ≤ 72 := by
  have hA : ('A' : Char).toNat = 65 := rfl
  have hH : ('H' : Char).toNat = 72 := rfl
  have hu : upperStr [c] = [Char.toUpper c] := rfl
  show (!(jsStrLt (upperStr [c]) ['A']) && !(jsStrLt ['H'] (upperStr [c]))) = true ↔ _
  rw [hu, Bool.and_eq_true, Bool.not_eq_true', Bool.not_eq_true',
    jsStrLt_single, jsStrLt_single, hA, hH]
  simp only [decide_eq_false_iff_not, Nat.not_lt]

set_option maxHeartbeats 1000000 in
/-- C1: the Queen rule yields exactly 21 destination squares from each corner
and exactly 27 from each of the four center squares D4, D5, E4, E5; from E4
the raw rule output holds exactly the 27 claimed squares, and sorting and
deduplicating it yields them in the canonical file-then-rank order. -/
theorem queen_move_counts :
    (QueenMovementStrategy.calculateValidMoves (mkSq 'A' 1)).length = 21 ∧
    (QueenMovementStrategy.calculateValidMoves (mkSq 'A' 8)).length = 21 ∧
    (QueenMovementStrategy.calculateValidMoves (mkSq 'H' 1)).length = 21 ∧
    (QueenMovementStrategy.calculateValidMoves (mkSq 'H' 8)).length = 21 ∧
    (QueenMovementStrategy.calculateValidMoves (mkSq 'D' 4)).length = 27 ∧
    (QueenMovementStrategy.calculateValidMoves (mkSq 'D' 5)).length = 27 ∧
    (QueenMovementStrategy.calculateValidMoves (mkSq 'E' 4)).length = 27 ∧
    (QueenMovementStrategy.calculateValidMoves (mkSq 'E' 5)).length = 27 ∧
    PositionSorter.sortAndDeduplicate (QueenMovementStrategy.calculateValidMoves (mkSq 'E' 4)) =
      e4QueenMoves ∧
    (∀ q ∈ QueenMovementStrategy.calculateValidMoves (mkSq 'E' 4), q ∈ e4QueenMoves) ∧
    (∀ q ∈ e4QueenMoves, q ∈ QueenMovementStrategy.calculateValidMoves (mkSq 'E' 4)) := by
  decide

set_option maxHeartbeats 2000000 in
/-- C2: the King rule yields exactly 3 squares from a corner, 5 from an edge
non-corner square and 8 from an interior square, and its output never holds
the origin or a duplicate. -/
theorem king_move_counts : ∀ p ∈ allSquares,
    (((p.fileIndex = 0 ∨ p.fileIndex = 7) ∧ (p.rank = 1 ∨ p.rank = 8)) →
      (KingMovementStrategy.calculateValidMoves p).length = 3) ∧
    (((p.fileIndex = 0 ∨ p.fileIndex = 7 ∨ p.rank = 1 ∨ p.rank = 8) ∧
        ¬((p.fileIndex = 0 ∨ p.fileIndex = 7) ∧ (p.rank = 1 ∨ p.rank = 8))) →
      (KingMovementStrategy.calculateValidMoves p).length = 5) ∧
    ((1 ≤ p.fileIndex ∧ p.fileIndex ≤ 6 ∧ 2 ≤ p.rank ∧ p.rank ≤ 7) →
      (KingMovementStrategy.calculateValidMoves p).length = 8) ∧
    p ∉ KingMovementStrategy.calculateValidMoves p ∧
    (KingMovementStrategy.calculateValidMoves p).Nodup := by
  decide

/-- Witness for C2 at the corner A1. -/
theorem king_move_counts_witness :
    (KingMovementStrategy.calculateValidMoves (mkSq 'A' 1)).length = 3 :=
  (king_move_counts (mkSq 'A' 1) (by decide)).1 (by decide)

set_option maxHeartbeats 4000000 in
/-- C3: for each supported piece kind and each board square the service
output is strictly sorted by file then rank under the sort comparator, hence
holds every destination at most once; the service is a pure function of its
arguments, so identical inputs give the identical output sequence by
definition. -/
theorem service_output_sorted_dedup : ∀ pt ∈ pieceNames, ∀ p ∈ allSquares,
    resultSortedB (ChessMovementService.calculateValidMoves pt p) = true := by
  decide

/-- Witness for C3: the Queen query at E4. -/
theorem service_output_sorted_dedup_witness :
    resultSortedB (ChessMovementService.calculateValidMoves ("Queen".data) (mkSq 'E' 4)) = true :=
  service_output_sorted_dedup ("Queen".data) (by decide) (mkSq 'E' 4) (by decide)

set_option maxHeartbeats 2000000 in
/-- C4: printing a valid square and re-parsing it succeeds and returns the
same square. -/
theorem notation_roundtrip : ∀ p ∈ allSquares,
    Position.fromNotation (Position.toNotation p) = Except.ok p := by
  decide

/-- Witness for C4 at D5. -/
theorem notation_roundtrip_witness :
    Position.fromNotation (Position.toNotation (mkSq 'D' 5)) = Except.ok (mkSq 'D' 5) :=
  notation_roundtrip (mkSq 'D' 5) (by decide)

/-- C5: on a constructed square, `offset` returns `null` exactly when the
shifted coordinates leave `[0,7] × [1,8]`, otherwise a square with exactly
the shifted coordinates and no error; `offset(0,0)` returns a square with the
origin's coordinates.  Mutation cannot be observed: the embedding's values
are immutable, as is the source's `Position` (all fields `readonly`, `offset`
builds a fresh object). -/
theorem offset_boundary_spec (f : List Char) (r : Option Int) (p : Position)
    (hp : Position.construct f r = Except.ok p) (fd rd : Int) :
    (Position.offset p fd rd = none ↔
      (p.fileIndex + fd < 0 ∨ 7 < p.fileIndex + fd ∨ p.rank + rd < 1 ∨ 8 < p.rank + rd)) ∧
    (∀ q, Position.offset p fd rd = some q →
      q.fileIndex = p.fileIndex + fd ∧ q.rank = p.rank + rd) ∧
    (∃ q, Position.offset p 0 0 = some q ∧ q.fileIndex = p.fileIndex ∧ q.rank = p.rank) := by
  obtain ⟨hb1, hb2, hb3, hb4⟩ := constructed_bounds f r p hp
  refine ⟨⟨?_, offset_none_of_oob p fd rd⟩, fun q hq => offset_some_coords p fd rd q hq, ?_⟩
  · intro hnone
    by_contra hoob
    push_neg at hoob
    rw [offset_some_of_inb p fd rd (by omega) (by omega) (by omega) (by omega)] at hnone
    cases hnone
  · refine ⟨_, offset_some_of_inb p 0 0 (by omega) (by omega) (by omega) (by omega), ?_, ?_⟩
    · obtain ⟨_, _, hdec⟩ := fromCharCode_board (p.fileIndex + 0) (by omega) (by omega)
      show ((fromCharCode (65 + (p.fileIndex + 0))).toNat : Int) - 65 = p.fileIndex
      omega
    · show p.rank + 0 = p.rank
      omega

/-- Witness for C5: the square E4, built from file "E" and rank 4. -/
theorem offset_boundary_spec_witness :
    ∃ q, Position.offset (mkSq 'E' 4) 0 0 = some q ∧
      q.fileIndex = (mkSq 'E' 4).fileIndex ∧ q.rank = (mkSq 'E' 4).rank :=
  (offset_boundary_spec ['E'] (some 4) (mkSq 'E' 4) (by decide) 1 1).2.2

/-- C6 counterexample: the two-letter file "AB" is not one of the letters
A–H, yet construction succeeds (the source compares whole strings
lexicographically), so the claimed file check is not what the code does. -/
theorem construct_file_check_counterexample :
    Position.construct ['A', 'B'] (some 5) = Except.ok { file := ['A', 'B'], rank := 5 } ∧
    Position.construct ['A', 'B'] (some 5) ≠
      Except.error (ChessError.invalidFile ['A', 'B']) := by
  constructor <;> decide

/-- C6 (amended): for single-character files the claim holds — construction
fails with the file error exactly when the uppercased character is outside
`'A'`–`'H'` — but multi-character strings inside the lexicographic range
(such as "AB") are also accepted; with an accepted file, construction fails
with the rank error exactly when the rank is outside `[1,8]`; every
constructed square stores the uppercased file and its coordinates lie on the
board. -/
theorem construct_validation_amended :
    (∀ (c : Char) (r : Int),
        Position.construct [c] (some r) = Except.error (ChessError.invalidFile [c]) ↔
          ¬(65 ≤ (Char.toUpper c).toNat ∧ (Char.toUpper c).toNat ≤ 72)) ∧
    (∀ (f : List Char) (r : Int), Position.isValidFile f = true →
        (Position.construct f (some r) = Except.error (ChessError.invalidRank (some r)) ↔
          ¬(1 ≤ r ∧ r ≤ 8))) ∧
    (∀ (f : List Char) (r : Option Int) (p : Position),
        Position.construct f r = Except.ok p →
          p.file = upperStr f ∧
            0 ≤ p.fileIndex ∧ p.fileIndex ≤ 7 ∧ 1 ≤ p.rank ∧ p.rank ≤ 8) := by
  refine ⟨?_, ?_, ?_⟩
  · intro c r
    exact (construct_invalidFile_iff [c] (some r)).trans
      (Bool.eq_false_iff.trans (not_congr (isValidFile_single_iff c)))
  · intro f r hf
    exact construct_invalidRank_iff f r hf
  · intro f r p hp
    obtain ⟨hvf, hfile, _, _⟩ := construct_ok f r p hp
    obtain ⟨h0, h1, h3, h4⟩ := constructed_bounds f r p hp
    exact ⟨hfile, h0, h1, h3, h4⟩

/-- C7 counterexample: "15" is malformed square text by the claim (first
character is not a letter), yet the failure is the file coordinate error,
not the malformed-text error — `fromNotation` itself only checks length. -/
theorem fromNotation_error_counterexample :
    Position.fromNotation ['1', '5'] = Except.error (ChessError.invalidFile ['1']) ∧
    Position.fromNotation ['1', '5'] ≠
      Except.error (ChessError.invalidNotation ['1', '5']) := by
  constructor <;> decide

/-- C7 (amended): `fromNotation` fails with the malformed-text error exactly
when the text is not 2 characters long; any 2-character text is delegated to
construction with the uppercased first character and the parsed second
character, so a non-letter first character or non-digit second character
fails with the corresponding coordinate error instead. -/
theorem fromNotation_error_amended :
    (∀ text : List Char,
        (∃ t, Position.fromNotation text = Except.error (ChessError.invalidNotation t)) ↔
          text.length ≠ 2) ∧
    (∀ c d : Char,
        Position.fromNotation [c, d] = Position.construct [Char.toUpper c] (parseDigit d)) := by
  constructor
  · intro text
    constructor
    · rintro ⟨t, ht⟩ hlen
      rw [fromNotation_len2 text hlen] at ht
      rcases construct_error_shapes _ _ _ ht with h | h <;> cases h
    · intro hlen
      exact ⟨text, fromNotation_not2 text hlen⟩
  · intro c d
    rfl

/-- C8 counterexample: for the unsupported kind "Rook" the orchestrator does
not propagate the factory's error unmodified — it rethrows it wrapped in the
`Failed to calculate moves` error. -/
theorem service_wrap_counterexample :
    ChessMovementService.calculateValidMoves ("Rook".data) (mkSq 'A' 1) =
      Except.error (ChessError.failedToCalculate (ChessError.noStrategy ("Rook".data))) ∧
    ChessMovementService.calculateValidMoves ("Rook".data) (mkSq 'A' 1) ≠
      Except.error (ChessError.noStrategy ("Rook".data)) := by
  constructor <;> decide

/-- C8 (amended): the coordinate operations raise their errors once at the
point of detection and never produce a wrapped error, but the Query
Orchestrator catches every error of a failing query and rethrows it wrapped
(`Failed to calculate moves: ...`), so its caller does not receive the
original error unmodified. -/
theorem service_error_wrapping_amended :
    (∀ (pt : List Char) (p : Position) (e : ChessError),
        MovementStrategyFactory.createStrategy pt = Except.error e →
          ChessMovementService.calculateValidMoves pt p =
            Except.error (ChessError.failedToCalculate e)) ∧
    (∀ (pt : List Char) (p : Position) (strat : Position → List Position),
        MovementStrategyFactory.createStrategy pt = Except.ok strat →
          ChessMovementService.calculateValidMoves pt p =
            Except.ok (PositionSorter.sortAndDeduplicate (strat p))) ∧
    (∀ (f : List Char) (r : Option Int) (e : ChessError),
        Position.construct f r ≠ Except.error (ChessError.failedToCalculate e)) ∧
    (∀ (text : List Char) (e : ChessError),
        Position.fromNotation text ≠ Except.error (ChessError.failedToCalculate e)) := by
  refine ⟨?_, ?_, ?_, ?_⟩
  · intro pt p e h
    unfold ChessMovementService.calculateValidMoves
    rw [h]
  · intro pt p strat h
    unfold ChessMovementService.calculateValidMoves
    rw [h]
  · intro f r e h
    rcases construct_error_shapes f r _ h with hc | hc <;> cases hc
  · intro text e h
    by_cases hlen : text.length = 2
    · rw [fromNotation_len2 text hlen] at h
      rcases construct_error_shapes _ _ _ h with hc | hc <;> cases hc
    · rw [fromNotation_not2 text hlen] at h
      cases Except.error.inj h

set_option maxHeartbeats 4000000 in
/-- C9: every rule's output square differs from the origin and is one of the
64 board squares; the Pawn rule yields exactly the one square a rank above
when the origin is below rank 8, and nothing from rank 8.  The rules are
total functions, so they cannot fail on any square. -/
theorem rules_never_escape_board : ∀ p ∈ allSquares,
    (∀ q ∈ PawnMovementStrategy.calculateValidMoves p, q ≠ p ∧ q ∈ allSquares) ∧
    (∀ q ∈ KingMovementStrategy.calculateValidMoves p, q ≠ p ∧ q ∈ allSquares) ∧
    (∀ q ∈ QueenMovementStrategy.calculateValidMoves p, q ≠ p ∧ q ∈ allSquares) ∧
    (p.rank < 8 → PawnMovementStrategy.calculateValidMoves p =
      [{ file := p.file, rank := p.rank + 1 }]) ∧
    (p.rank = 8 → PawnMovementStrategy.calculateValidMoves p = []) := by
  decide

/-- Witness for C9 at D5. -/
theorem rules_never_escape_board_witness :
    PawnMovementStrategy.calculateValidMoves (mkSq 'D' 5) =
      [{ file := (mkSq 'D' 5).file, rank := (mkSq 'D' 5).rank + 1 }] :=
  (rules_never_escape_board (mkSq 'D' 5) (by decide)).2.2.2.1 (by decide)

/-- C10: `fromCoordinates` accepts the out-of-range file indexes 32–39 (whose
character codes 97–104 are the lowercase letters a–h): for every rank in
`[1,8]` it succeeds and stores the uppercased letter with code `65 + i`
instead of failing with a coordinate error. -/
theorem fromCoordinates_lowercase_leak :
    ∀ i : Int, 32 ≤ i → i ≤ 39 →
      ¬(0 ≤ i ∧ i ≤ 7) ∧
      ∀ r : Int, 1 ≤ r → r ≤ 8 →
        Position.fromCoordinates i r =
          Except.ok { file := [Char.toUpper (fromCharCode (65 + i))], rank := r } := by
  intro i h1 h2
  refine ⟨by omega, ?_⟩
  intro r hr1 hr2
  rw [fromCoordinates_eq]
  exact construct_single_ok _ _ (by interval_cases i <;> decide) hr1 hr2

/-- Witness for C10 at file index 32 (the letter "a"), rank 1. -/
theorem fromCoordinates_lowercase_leak_witness :
    ¬((0 : Int) ≤ 32 ∧ (32 : Int) ≤ 7) ∧
    Position.fromCoordinates 32 1 =
      Except.ok { file := [Char.toUpper (fromCharCode (65 + 32))], rank := 1 } :=
  ⟨(fromCoordinates_lowercase_leak 32 (by decide) (by decide)).1,
    (fromCoordinates_lowercase_leak 32 (by decide) (by decide)).2 1 (by decide) (by decide)⟩
